import Mathlib

/-!
Verification of the timeline-to-video compositor core of the `univa` repository.

This file shallowly embeds the pure computational content of the export
pipeline (frame scheduling, active-element selection, render ordering,
timeline validation, audio mixing, settings validation, seek tolerance,
progress reporting) as executable Lean definitions translated from the
TypeScript source, and proves or refutes the specification claims about it.

Times are modelled as exact rationals (the source computes with JS numbers);
machine integer quantities (frame indices, sample counts, microseconds) are
modelled as `Nat`/`Int` with explicit floor/ceil where the source uses
`Math.floor` / `Math.ceil` / integer division.
-/

namespace Univa

/-! ## Timeline data model (src/packages/video-export/src/types, timeline-transformer.ts) -/

/-- Element kinds appearing in `ExportElement.type` in the source. -/
inductive ElementKind
  | media
  | text
  | overlay
  | subtitle
  | effect
deriving DecidableEq

/-- Track kinds appearing in `ExportTrack.type` in the source. -/
inductive TrackKind
  | media
  | text
  | audio
deriving DecidableEq

/-- An element of the export timeline (the fields the verified code reads).
`hasFile` / `hasUrl` model the truthiness of the optional `file` / `url`
byte sources; `mediaId` and `content` model the corresponding strings,
with the empty string playing the role of a missing (falsy) value. -/
structure ExportElement where
  id : String
  name : String
  kind : ElementKind
  startTime : ℚ
  duration : ℚ
  trimStart : ℚ
  trimEnd : ℚ
  mediaId : String
  hasFile : Bool
  hasUrl : Bool
  content : String
deriving DecidableEq

/-- A track of the export timeline. -/
structure ExportTrack where
  id : String
  name : String
  kind : TrackKind
  muted : Bool
  elements : List ExportElement
deriving DecidableEq

/-- Project-level settings carried inside the timeline data. -/
structure ProjectSettings where
  width : ℚ
  height : ℚ
  fps : ℚ
deriving DecidableEq

/-- `TimelineExportData`: the timeline model handed to the export engine. -/
structure TimelineExportData where
  tracks : List ExportTrack
  duration : ℚ
  settings : ProjectSettings
deriving DecidableEq

/-! ## Active interval (BaseElementRenderer.isElementActive,
FrameRenderer.getActiveElementsAtTime) -/

/-- `elementEndTime` as computed in both `getActiveElementsAtTime` and
`isElementActive`: `startTime + duration - trimStart - trimEnd`. -/
def elementEndTime (e : ExportElement) : ℚ :=
  e.startTime + e.duration - e.trimStart - e.trimEnd

/-- `BaseElementRenderer.isElementActive`:
`timestamp >= element.startTime && timestamp < elementEndTime`. -/
def isElementActive (e : ExportElement) (timestamp : ℚ) : Bool :=
  decide (e.startTime ≤ timestamp) && decide (timestamp < elementEndTime e)

/-- An entry of the active set built by `getActiveElementsAtTime`: the
element together with its track.  The track is represented by its index in
`timelineData.tracks` (JS object identity makes `tracks.indexOf(track)`
return exactly this position) plus the track fields the renderer reads. -/
structure ActiveElement where
  element : ExportElement
  trackIndex : ℕ
  trackKind : TrackKind
  trackMuted : Bool
deriving DecidableEq

/-- Pair each track with its position in the track list (models iteration
order plus JS reference identity for `indexOf`). -/
def enumTracks : ℕ → List ExportTrack → List (ℕ × ExportTrack)
  | _, [] => []
  | i, tr :: rest => (i, tr) :: enumTracks (i + 1) rest

/-- `FrameRenderer.getActiveElementsAtTime`: for every track and every
element, include the element iff
`timestamp >= startTime && timestamp < elementEndTime`. -/
def getActiveElementsAtTime (tl : TimelineExportData) (timestamp : ℚ) :
    List ActiveElement :=
  (enumTracks 0 tl.tracks).flatMap fun p =>
    (p.2.elements.filter (fun e => isElementActive e timestamp)).map fun e =>
      { element := e, trackIndex := p.1, trackKind := p.2.kind,
        trackMuted := p.2.muted }

theorem mem_enumTracks {tr : ExportTrack} :
    ∀ (n : ℕ) (l : List ExportTrack),
      (∃ i, (i, tr) ∈ enumTracks n l) ↔ tr ∈ l := by
  intro n l
  induction l generalizing n with
  | nil => simp [enumTracks]
  | cons hd tl ih =>
    simp only [enumTracks, List.mem_cons]
    constructor
    · rintro ⟨i, h | h⟩
      · left
        exact (Prod.mk.injEq _ _ _ _ ▸ h).2.symm ▸ rfl
      · right
        exact (ih (n + 1)).mp ⟨i, h⟩
    · rintro (h | h)
      · exact ⟨n, Or.inl (by rw [h])⟩
      · obtain ⟨i, hi⟩ := (ih (n + 1)).mpr h
        exact ⟨i, Or.inr hi⟩

/-- **C3.** An element is in the frame's active set iff
`startTime ≤ t < startTime + duration − trimStart − trimEnd`; the lower
boundary is inclusive and the upper boundary exclusive. -/
theorem active_iff_in_half_open_interval (tl : TimelineExportData) (t : ℚ)
    (e : ExportElement) :
    (∃ it ∈ getActiveElementsAtTime tl t, it.element = e) ↔
      ∃ tr ∈ tl.tracks, e ∈ tr.elements ∧
        (e.startTime ≤ t ∧ t < e.startTime + e.duration - e.trimStart - e.trimEnd) := by
  simp only [getActiveElementsAtTime, List.mem_flatMap, List.mem_map,
    List.mem_filter, isElementActive, elementEndTime, Bool.and_eq_true,
    decide_eq_true_eq]
  constructor
  · rintro ⟨it, ⟨⟨i, tr⟩, hmem, ⟨x, ⟨hx, hact⟩, hel⟩⟩, hely⟩
    refine ⟨tr, (mem_enumTracks 0 _).mp ⟨i, hmem⟩, ?_⟩
    subst hely
    cases hel
    exact ⟨hx, hact⟩
  · rintro ⟨tr, htr, hel, hact⟩
    obtain ⟨i, hi⟩ := (mem_enumTracks 0 tl.tracks).mpr htr
    exact ⟨{ element := e, trackIndex := i, trackKind := tr.kind,
             trackMuted := tr.muted }, ⟨⟨i, tr⟩, hi, ⟨e, ⟨hel, hact⟩, rfl⟩⟩, rfl⟩

/-! ## Render order (FrameRenderer.sortElementsByRenderOrder) -/

/-- The comparator body of `sortElementsByRenderOrder`:
text tracks sort after (above) all non-text tracks, ties broken by the
track's index in the timeline sequence. -/
def renderCompare (a b : ActiveElement) : ℤ :=
  if a.trackKind = TrackKind.text ∧ b.trackKind ≠ TrackKind.text then 1
  else if b.trackKind = TrackKind.text ∧ a.trackKind ≠ TrackKind.text then -1
  else (a.trackIndex : ℤ) - (b.trackIndex : ℤ)

/-- `a` may be placed before `b` by the sort, i.e. the comparator is ≤ 0. -/
def renderLE (a b : ActiveElement) : Bool :=
  decide (renderCompare a b ≤ 0)

/-- `FrameRenderer.sortElementsByRenderOrder`.  JS `Array.prototype.sort`
is a stable sort; with the consistent comparator `renderCompare` its result
is the stable sort by `renderLE`, which `List.mergeSort` computes. -/
def sortElementsByRenderOrder (elements : List ActiveElement) :
    List ActiveElement :=
  elements.mergeSort renderLE

/-- Track-kind priority implicit in the comparator: text = 1, others = 0. -/
def renderPriority (a : ActiveElement) : ℕ :=
  if a.trackKind = TrackKind.text then 1 else 0

theorem renderLE_iff (a b : ActiveElement) :
    renderLE a b = true ↔
      (renderPriority a < renderPriority b ∨
        (renderPriority a = renderPriority b ∧ a.trackIndex ≤ b.trackIndex)) := by
  by_cases ha : a.trackKind = TrackKind.text <;>
    by_cases hb : b.trackKind = TrackKind.text <;>
      simp [renderLE, renderCompare, renderPriority, ha, hb] <;> omega

theorem renderLE_trans (a b c : ActiveElement) :
    renderLE a b → renderLE b c → renderLE a c := by
  intro hab hbc
  rw [renderLE_iff] at hab hbc ⊢
  omega

theorem renderLE_total (a b : ActiveElement) : renderLE a b || renderLE b a := by
  rw [Bool.or_eq_true, renderLE_iff, renderLE_iff]
  omega

/-- **C5.** Sorting the active set is a permutation; in the sorted output a
text-track element never precedes (renders below) a non-text-track element
and equal-priority elements are in ascending track index; elements of the
same track keep their original relative order (stability). -/
theorem render_order_deterministic_total_stable (l : List ActiveElement) :
    (sortElementsByRenderOrder l).Perm l
    ∧ (∀ a b : ActiveElement, List.Sublist [a, b] (sortElementsByRenderOrder l) →
        ((a.trackKind = TrackKind.text → b.trackKind = TrackKind.text)
          ∧ (renderPriority a = renderPriority b → a.trackIndex ≤ b.trackIndex)))
    ∧ (∀ a b : ActiveElement, List.Sublist [a, b] l → a.trackIndex = b.trackIndex →
        a.trackKind = b.trackKind → List.Sublist [a, b] (sortElementsByRenderOrder l)) := by
  refine ⟨List.mergeSort_perm l renderLE, ?_, ?_⟩
  · intro a b hab
    have hs : (sortElementsByRenderOrder l).Pairwise (renderLE · ·) :=
      @List.sorted_mergeSort ActiveElement renderLE
        (fun x y z => renderLE_trans x y z) (fun x y => renderLE_total x y) l
    have h := List.pairwise_iff_forall_sublist.mp hs hab
    rw [renderLE_iff] at h
    constructor
    · intro hatext
      by_contra hbt
      have : renderPriority a = 1 := by simp [renderPriority, hatext]
      have : renderPriority b = 0 := by simp [renderPriority, hbt]
      omega
    · intro hprio
      omega
  · intro a b hab hidx hkind
    refine List.pair_sublist_mergeSort
      (fun x y z => renderLE_trans x y z) (fun x y => renderLE_total x y) ?_ hab
    rw [renderLE_iff, renderPriority, renderPriority, hkind, hidx]
    omega

/-- A dummy element used to build concrete active-set items. -/
def sampleElement : ExportElement :=
  { id := "e", name := "e", kind := ElementKind.media, startTime := 0,
    duration := 1, trimStart := 0, trimEnd := 0, mediaId := "m",
    hasFile := true, hasUrl := false, content := "" }

/-- A media-track item on track 0. -/
def itemM0 : ActiveElement :=
  { element := sampleElement, trackIndex := 0, trackKind := TrackKind.media,
    trackMuted := false }

/-- A second media-track item on track 0 (later element of the same track). -/
def itemM0b : ActiveElement :=
  { element := { sampleElement with id := "e2" }, trackIndex := 0,
    trackKind := TrackKind.media, trackMuted := false }

/-- A text-track item on track 1. -/
def itemT1 : ActiveElement :=
  { element := { sampleElement with id := "e3", kind := ElementKind.text },
    trackIndex := 1, trackKind := TrackKind.text, trackMuted := false }

theorem render_order_witness :
    List.Sublist [itemM0, itemM0b]
        (sortElementsByRenderOrder [itemT1, itemM0, itemM0b])
      ∧ (itemM0.trackKind = TrackKind.text → itemM0b.trackKind = TrackKind.text)
      ∧ (renderPriority itemM0 = renderPriority itemM0b →
          itemM0.trackIndex ≤ itemM0b.trackIndex)
      ∧ (sortElementsByRenderOrder [itemT1, itemM0, itemM0b]).Perm
          [itemT1, itemM0, itemM0b] := by
  have h := render_order_deterministic_total_stable [itemT1, itemM0, itemM0b]
  have hstable := h.2.2 itemM0 itemM0b (by decide) rfl rfl
  have hpair := h.2.1 itemM0 itemM0b hstable
  exact ⟨hstable, hpair.1, hpair.2, h.1⟩

/-! ## Encoder driver frame loop (VideoExportEngine.processVideo) -/

/-- `totalFrames = Math.ceil(timelineData.duration * settings.fps)`. -/
def totalFrames (duration : ℚ) (fps : ℕ) : ℕ :=
  (⌈duration * (fps : ℚ)⌉).toNat

/-- The data attached to one submitted video frame: the loop index, the
`VideoFrame` presentation timestamp and duration in microseconds, and the
forced-keyframe flag passed to `encoder.encode`. -/
structure SubmittedFrame where
  index : ℕ
  timestampUs : ℕ
  durationUs : ℕ
  keyFrame : Bool
deriving DecidableEq

/-- The frame-submission sequence of `processVideo`: for
`frame in 0..=totalFrames` build a `VideoFrame` with
`timestamp = floor((frame / fps) * 1e6)`, `duration = floor(1e6 / fps)`,
and encode it with `keyFrame = (frame % (3 * fps) == 0)`.
`Nat` division is exactly the `Math.floor` of the exact quotient. -/
def processVideoFrames (duration : ℚ) (fps : ℕ) : List SubmittedFrame :=
  (List.range (totalFrames duration fps + 1)).map fun frame =>
    { index := frame
      timestampUs := frame * 1000000 / fps
      durationUs := 1000000 / fps
      keyFrame := frame % (3 * fps) == 0 }

/-- **C1.** With `N = ceil(duration · fps)`, the driver submits exactly
`N + 1` frames, one per index `k ∈ [0, N]` in order, with PTS
`floor(k · 1e6 / fps)` µs, duration `floor(1e6 / fps)` µs, a forced
keyframe iff `k mod (3 · fps) = 0`, and strictly increasing PTS. -/
theorem frame_loop_submits_n_plus_one_frames (duration : ℚ) (fps : ℕ)
    (hfps : 1 ≤ fps) (hfps2 : fps ≤ 120) :
    (processVideoFrames duration fps).length = totalFrames duration fps + 1
    ∧ (processVideoFrames duration fps).map SubmittedFrame.index
        = List.range (totalFrames duration fps + 1)
    ∧ (∀ f ∈ processVideoFrames duration fps,
        f.timestampUs = f.index * 1000000 / fps
        ∧ f.durationUs = 1000000 / fps
        ∧ (f.keyFrame = true ↔ f.index % (3 * fps) = 0))
    ∧ ((processVideoFrames duration fps).map SubmittedFrame.timestampUs).Pairwise
        (· < ·) := by
  refine ⟨by simp [processVideoFrames], ?_, ?_, ?_⟩
  · simp [processVideoFrames, List.map_map, Function.comp_def]
  · intro f hf
    simp only [processVideoFrames, List.mem_map, List.mem_range] at hf
    obtain ⟨k, _, rfl⟩ := hf
    refine ⟨rfl, rfl, ?_⟩
    simp
  · rw [processVideoFrames, List.map_map]
    refine List.Pairwise.map _ ?_ (List.pairwise_lt_range _)
    intro a b hab
    simp only [Function.comp_apply]
    have hle : fps ≤ 1000000 := by omega
    calc a * 1000000 / fps
        < a * 1000000 / fps + 1 := Nat.lt_succ_self _
      _ = (a * 1000000 + fps) / fps := (Nat.add_div_right _ (by omega)).symm
      _ ≤ b * 1000000 / fps := by
          apply Nat.div_le_div_right
          have : a + 1 ≤ b := hab
          calc a * 1000000 + fps ≤ a * 1000000 + 1000000 := by omega
            _ = (a + 1) * 1000000 := by ring
            _ ≤ b * 1000000 := Nat.mul_le_mul_right _ this

theorem frame_loop_witness :
    (1 ≤ 30 ∧ 30 ≤ 120)
    ∧ ((processVideoFrames 2 30).length = totalFrames 2 30 + 1
      ∧ (processVideoFrames 2 30).map SubmittedFrame.index
          = List.range (totalFrames 2 30 + 1)
      ∧ (∀ f ∈ processVideoFrames 2 30,
          f.timestampUs = f.index * 1000000 / 30
          ∧ f.durationUs = 1000000 / 30
          ∧ (f.keyFrame = true ↔ f.index % (3 * 30) = 0))
      ∧ ((processVideoFrames 2 30).map SubmittedFrame.timestampUs).Pairwise
          (· < ·)) :=
  ⟨⟨by decide, by decide⟩,
    frame_loop_submits_n_plus_one_frames 2 30 (by decide) (by decide)⟩

/-! ## Post-loop chunk-count check (VideoExportEngine.processVideo, after
the frame loop).  The source flushes the encoder, logs an error when
`encodedChunks < totalFrames + 1`, closes the encoder and returns
normally, after which `export` always proceeds to `output.finalize()`. -/

/-- Outcome of the post-loop section of `processVideo` together with the
continuation in `export`: whether the mismatch error was recorded, and
whether finalization proceeds. -/
structure PostLoopOutcome where
  errorRecorded : Bool
  finalized : Bool
deriving DecidableEq

/-- The post-loop check: `if (encodedChunks < totalFrames + 1) { log error }`;
control then falls through to `encoder.close()` and `output.finalize()`
unconditionally. -/
def postLoopCheck (encodedChunks tot : ℕ) : PostLoopOutcome :=
  { errorRecorded := decide (encodedChunks < tot + 1), finalized := true }

/-- **C9 counterexample.** With `N = 0` and `2` emitted chunks the count
differs from `N + 1`, yet no error is recorded (the code only checks
`encodedChunks < N + 1`, not `≠`). -/
theorem chunk_check_not_flagging_surplus :
    (postLoopCheck 2 0).errorRecorded = false
    ∧ 2 ≠ 0 + 1
    ∧ (postLoopCheck 2 0).finalized = true := by
  decide

/-- **C9 amended.** The driver records the mismatch error iff the emitted
chunk count is *less than* `N + 1` (a surplus is not flagged), and
finalization proceeds in either case. -/
theorem chunk_check_flags_deficit_only (encodedChunks tot : ℕ) :
    ((postLoopCheck encodedChunks tot).errorRecorded = true
      ↔ encodedChunks < tot + 1)
    ∧ (postLoopCheck encodedChunks tot).finalized = true := by
  simp [postLoopCheck]

/-! ## Video seek reuse tolerance (MediaElementRenderer.seekVideo) -/

/-- `seekVideo`: the decoder's current frame is reused (the promise
resolves without seeking) iff `|video.currentTime − time| < 1/60`
(`tolerance = 1 / 60`, the comment in the source reads
`1 frame at 60fps`); otherwise a seek is issued. -/
def seekVideoReuses (currentTime time : ℚ) : Bool :=
  decide (|currentTime - time| < 1 / 60)

/-- **C7 counterexample.** At output frame rate 120 fps the output-frame
period is `1/120`; with the decoder at time `0` and target `τ = 1/80` the
difference `1/80` is *not* within one output-frame period, yet the decoder
reuses its current frame, because the tolerance is the fixed `1/60`. -/
theorem seek_reuse_outside_output_period :
    seekVideoReuses 0 (1 / 80) = true
    ∧ ¬ (|(0 : ℚ) - 1 / 80| < 1 / 120) := by
  have habs : |(0 : ℚ) - 1 / 80| = 1 / 80 := by
    rw [zero_sub, abs_neg]
    exact abs_of_nonneg (by norm_num)
  constructor
  · rw [seekVideoReuses, decide_eq_true_eq, habs]
    norm_num
  · rw [habs]
    norm_num

/-- **C7 amended.** The decoder reuses its current frame iff its current
time is within the fixed tolerance `1/60` s (one frame period at 60 fps)
of the target `τ`, independently of the configured output frame rate. -/
theorem seek_reuse_iff_within_fixed_tolerance (currentTime time : ℚ) :
    seekVideoReuses currentTime time = true ↔ |currentTime - time| < 1 / 60 := by
  simp [seekVideoReuses]

/-! ## Media draw rectangle (BaseElementRenderer.applyElementProperties +
MediaElementRenderer.renderVideoToCanvas / renderImage) -/

/-- The settings fields the media renderer reads. -/
structure SurfaceSettings where
  width : ℚ
  height : ℚ
  resolution : ℚ
deriving DecidableEq

/-- An axis-aligned rectangle in device pixels. -/
structure Rect where
  x : ℚ
  y : ℚ
  w : ℚ
  h : ℚ
deriving DecidableEq

/-- `applyElementProperties` calls `context.scale(resolution, resolution)`,
so user-space coordinates of the subsequent draw are multiplied by
`resolution`. -/
def applyElementPropertiesScale (s : SurfaceSettings) : ℚ :=
  s.resolution

/-- The user-space rectangle of `renderVideoToCanvas` (and `renderImage`):
`drawImage(media, 0, 0, width * resolution, height * resolution)`. -/
def renderVideoToCanvasUserRect (s : SurfaceSettings) : Rect :=
  { x := 0, y := 0, w := s.width * s.resolution, h := s.height * s.resolution }

/-- Convert a user-space rectangle to device pixels under a uniform
context scale. -/
def toDeviceRect (scale : ℚ) (r : Rect) : Rect :=
  { x := scale * r.x, y := scale * r.y, w := scale * r.w, h := scale * r.h }

/-- The device-pixel rectangle actually covered by the media draw: the
`renderVideoToCanvas` rectangle under the `applyElementProperties` scale. -/
def mediaRenderDeviceRect (s : SurfaceSettings) : Rect :=
  toDeviceRect (applyElementPropertiesScale s) (renderVideoToCanvasUserRect s)

/-- Effective surface width `round(width * resolution)` (the canvas is
allocated at this size; Lean's `round` equals JS `Math.round` on halves). -/
def effectiveSurfaceWidth (s : SurfaceSettings) : ℤ :=
  round (s.width * s.resolution)

/-- Effective surface height `round(height * resolution)`. -/
def effectiveSurfaceHeight (s : SurfaceSettings) : ℤ :=
  round (s.height * s.resolution)

/-- **C6.** At `width = 1920`, `height = 1080`, `resolution = 2` the media
renderer draws into the device rectangle `7680 × 4320`, which is *not* the
canvas-filling rectangle `(0, 0, W_eff, H_eff) = (0, 0, 3840, 2160)`: the
resolution multiplier is applied twice (once by the context scale of
`applyElementProperties`, once inside `renderVideoToCanvas`). -/
theorem media_draw_rect_double_scaled :
    mediaRenderDeviceRect { width := 1920, height := 1080, resolution := 2 }
        = { x := 0, y := 0, w := 7680, h := 4320 }
    ∧ effectiveSurfaceWidth { width := 1920, height := 1080, resolution := 2 } = 3840
    ∧ effectiveSurfaceHeight { width := 1920, height := 1080, resolution := 2 } = 2160
    ∧ mediaRenderDeviceRect { width := 1920, height := 1080, resolution := 2 }
        ≠ { x := 0, y := 0, w := 3840, h := 2160 }
    ∧ mediaRenderDeviceRect { width := 1920, height := 1080, resolution := 1 }
        = { x := 0, y := 0, w := 1920, h := 1080 } := by
  refine ⟨?_, ?_, ?_, ?_, ?_⟩
  · show Rect.mk _ _ _ _ = _
    norm_num [mediaRenderDeviceRect, toDeviceRect, applyElementPropertiesScale,
      renderVideoToCanvasUserRect]
  · norm_num [effectiveSurfaceWidth, round_eq]
  · norm_num [effectiveSurfaceHeight, round_eq]
  · intro h
    have := congrArg Rect.w h
    norm_num [mediaRenderDeviceRect, toDeviceRect, applyElementPropertiesScale,
      renderVideoToCanvasUserRect] at this
  · show Rect.mk _ _ _ _ = _
    norm_num [mediaRenderDeviceRect, toDeviceRect, applyElementPropertiesScale,
      renderVideoToCanvasUserRect]

/-! ## Timeline validation (TimelineDataTransformer.validateTimelineData).
The function only reads its input and pushes message strings; it is pure,
so non-mutation is inherent in the embedding. -/

/-- Per-element validation messages pushed by the element loop. -/
def validateElement (trackName : String) (e : ExportElement) : List String :=
  (if e.id = "" ∨ e.startTime < 0 ∨ e.duration ≤ 0 then
     ["Invalid element: " ++ (if e.id = "" then "unknown" else e.id)
       ++ " in track " ++ trackName]
   else [])
  ++ (if e.kind = ElementKind.media ∧ e.mediaId = "" then
       ["Media element " ++ e.id ++ " missing mediaId"]
     else [])
  ++ (if e.kind = ElementKind.media ∧ ¬e.hasFile ∧ ¬e.hasUrl then
       ["Media element " ++ e.id ++ " missing file or URL"]
     else [])
  ++ (if e.kind = ElementKind.text ∧ e.content = "" then
       ["Text element " ++ e.id ++ " missing content"]
     else [])

/-- Per-track validation messages (track header check plus element loop). -/
def validateTrack (tr : ExportTrack) : List String :=
  (if tr.id = "" ∨ tr.name = "" then
     ["Invalid track: " ++ (if tr.id = "" then "unknown" else tr.id)]
   else [])
  ++ tr.elements.flatMap (validateElement tr.name)

/-- `TimelineDataTransformer.validateTimelineData`: collects the error
messages in source order.  JS truthiness of strings / numbers is modelled
by comparison with `""` / `0`. -/
def validateTimelineData (data : TimelineExportData) : List String :=
  (if data.tracks.length = 0 then ["No tracks found in timeline data"] else [])
  ++ (if data.duration ≤ 0 then ["Timeline duration must be greater than 0"]
      else [])
  ++ (if data.tracks.foldl (fun sum tr => sum + tr.elements.length) 0 = 0 then
       ["No elements found in timeline - add some media or text to export"]
     else [])
  ++ (if data.settings.width = 0 ∨ data.settings.height = 0 then
       ["Invalid project settings"]
     else [])
  ++ data.tracks.flatMap validateTrack

/-- An element with `trimStart + trimEnd ≥ duration` that trips none of
the implemented checks. -/
def overtrimmedElement : ExportElement :=
  { id := "e1", name := "Clip", kind := ElementKind.media,
    startTime := 0, duration := 2, trimStart := 3 / 2,
    trimEnd := 1, mediaId := "m1", hasFile := false,
    hasUrl := true, content := "" }

/-- A timeline whose single element is `overtrimmedElement`. -/
def overtrimmedTimeline : TimelineExportData :=
  { tracks :=
      [{ id := "t1", name := "Track 1", kind := TrackKind.media,
         muted := false, elements := [overtrimmedElement] }],
    duration := 5,
    settings := { width := 1920, height := 1080, fps := 30 } }

/-- **C4 counterexample.** The validator returns *no* error although the
input violates `trimStart + trimEnd < duration` (and the claim also names
canvas-range and sample-rate checks, which the code does not perform). -/
theorem validator_misses_overtrim :
    validateTimelineData overtrimmedTimeline = []
    ∧ overtrimmedElement ∈ (overtrimmedTimeline.tracks.map ExportTrack.elements).flatten
    ∧ overtrimmedElement.trimStart + overtrimmedElement.trimEnd
        ≥ overtrimmedElement.duration := by
  refine ⟨rfl, by simp [overtrimmedTimeline], ?_⟩
  show (3 : ℚ) / 2 + 1 ≥ 2
  norm_num

/-- **C4 amended.** The (pure, non-mutating) validator returns at least
one error whenever the timeline has no tracks, non-positive duration, no
elements at all, a zero canvas dimension in the project settings, an
element with an empty id, negative start time, or non-positive duration,
a media element with a missing media id or with neither file nor URL, or
a text element without content.  It performs no check of trim sums,
canvas dimension ranges, or audio sample rate. -/
theorem validator_flags_implemented_failures (data : TimelineExportData) :
    (data.tracks = [] → validateTimelineData data ≠ [])
    ∧ (data.duration ≤ 0 → validateTimelineData data ≠ [])
    ∧ ((∀ tr ∈ data.tracks, tr.elements = []) →
        validateTimelineData data ≠ [])
    ∧ (data.settings.width = 0 ∨ data.settings.height = 0 →
        validateTimelineData data ≠ [])
    ∧ (∀ tr ∈ data.tracks, ∀ e ∈ tr.elements,
        (e.id = "" ∨ e.startTime < 0 ∨ e.duration ≤ 0
          ∨ (e.kind = ElementKind.media ∧ e.mediaId = "")
          ∨ (e.kind = ElementKind.media ∧ ¬e.hasFile ∧ ¬e.hasUrl)
          ∨ (e.kind = ElementKind.text ∧ e.content = "")) →
        validateTimelineData data ≠ []) := by
  have happend : ∀ l₁ l₂ l₃ l₄ l₅ : List String, l₁ ++ l₂ ++ l₃ ++ l₄ ++ l₅ = [] →
      l₁ = [] ∧ l₂ = [] ∧ l₃ = [] ∧ l₄ = [] ∧ l₅ = [] := by
    intro l₁ l₂ l₃ l₄ l₅ h
    simpa [List.append_eq_nil] using h
  have hfold : ∀ (l : List ExportTrack) (n : ℕ), (∀ tr ∈ l, tr.elements = []) →
      l.foldl (fun sum tr => sum + tr.elements.length) n = n := by
    intro l
    induction l with
    | nil => intro n _; rfl
    | cons hd tl ih =>
      intro n h
      rw [List.foldl_cons, h hd (List.mem_cons_self _ _), List.length_nil,
        Nat.add_zero]
      exact ih n fun tr htr => h tr (List.mem_cons_of_mem _ htr)
  refine ⟨?_, ?_, ?_, ?_, ?_⟩
  · intro h hnil
    obtain ⟨h1, -, -, -, -⟩ := happend _ _ _ _ _ hnil
    rw [validateTimelineData.eq_1] at hnil
    simp [h] at hnil
  · intro h hnil
    rw [validateTimelineData.eq_1] at hnil
    simp [h] at hnil
  · intro h hnil
    rw [validateTimelineData.eq_1] at hnil
    rw [hfold data.tracks 0 h] at hnil
    simp at hnil
  · intro h hnil
    rw [validateTimelineData.eq_1] at hnil
    simp [h] at hnil
  · intro tr htr e he hbad hnil
    obtain ⟨-, -, -, -, h5⟩ := happend _ _ _ _ _ hnil
    have hmem : validateTrack tr ≠ [] := by
      have helem : validateElement tr.name e ≠ [] := by
        rcases hbad with h | h | h | h | h | h <;>
          simp [validateElement, h] <;> intro hc <;> simp_all
      intro hvt
      rw [validateTrack] at hvt
      rcases List.append_eq_nil.mp hvt with ⟨-, h2⟩
      exact helem (List.flatMap_eq_nil_iff.mp h2 e he)
    have : validateTrack tr = [] := by
      have := List.flatMap_eq_nil_iff.mp h5
      exact this tr htr
    exact hmem this

theorem validator_flags_witness :
    validateTimelineData
        { tracks := [], duration := -1,
          settings := { width := 0, height := 0, fps := 30 } } ≠ []
    ∧ validateTimelineData
        { tracks := [{ id := "t1", name := "Track 1",
                       kind := TrackKind.media, muted := false,
                       elements := [] }],
          duration := 5,
          settings := { width := 1920, height := 1080, fps := 30 } } ≠ [] :=
  ⟨(validator_flags_implemented_failures
      { tracks := [], duration := -1,
        settings := { width := 0, height := 0, fps := 30 } }).1 rfl,
    (validator_flags_implemented_failures
        { tracks := [{ id := "t1", name := "Track 1",
                       kind := TrackKind.media, muted := false,
                       elements := [] }],
          duration := 5,
          settings := { width := 1920, height := 1080, fps := 30 } }).2.2.1
      (by simp)⟩

/-! ## Progress events (VideoExportEngine.export / emitRenderProgress).
A run is modelled by its frame count and an optional fatal-failure point:
`failBefore = some j` means the frame loop throws while working on frame
`j` (render/encode error or abort), before that frame's progress emission;
the `catch` branch of `export` then emits the error event
`{currentFrame 0, totalFrames 0, percentage 0, stage error}`. -/

/-- The `stage` field of a progress event. -/
inductive Stage
  | initializing
  | processing
  | finalizing
  | complete
  | error
deriving DecidableEq

/-- Position of a stage in the forward order
`initializing → processing → finalizing → (complete | error)`. -/
def stageRank : Stage → ℕ
  | Stage.initializing => 0
  | Stage.processing => 1
  | Stage.finalizing => 2
  | Stage.complete => 3
  | Stage.error => 3

/-- A progress event as emitted by `emitProgress`. -/
structure ProgressEvent where
  currentFrame : ℕ
  tot : ℕ
  percentage : ℚ
  stage : Stage
deriving DecidableEq

/-- The frames at which the loop calls `emitRenderProgress`:
`frame % 10 == 0 || frame == totalFrames`, restricted to the frames the
loop actually completed before the failure point (if any). -/
def processingEmitFrames (tot : ℕ) (failBefore : Option ℕ) : List ℕ :=
  (List.range (tot + 1)).filter fun k =>
    (k % 10 == 0 || k == tot)
      && (match failBefore with
          | some j => k < j
          | none => true)

/-- `emitRenderProgress`: percentage `(frame / totalFrames) * 100`,
stage `processing`. -/
def renderProgressEvent (frame tot : ℕ) : ProgressEvent :=
  { currentFrame := frame, tot := tot,
    percentage := (frame : ℚ) / (tot : ℚ) * 100, stage := Stage.processing }

/-- The full sequence of progress events of one `export` run: the
`initializing` event, the processing events, then either
`finalizing`/`complete` (both at 100 %) or the catch branch's `error`
event at 0 %. -/
def progressTrace (tot : ℕ) (failBefore : Option ℕ) : List ProgressEvent :=
  { currentFrame := 0, tot := 0, percentage := 0, stage := Stage.initializing }
    :: ((processingEmitFrames tot failBefore).map (renderProgressEvent · tot)
      ++ match failBefore with
         | none =>
           [{ currentFrame := tot, tot := tot, percentage := 100,
              stage := Stage.finalizing },
            { currentFrame := tot, tot := tot, percentage := 100,
              stage := Stage.complete }]
         | some _ =>
           [{ currentFrame := 0, tot := 0, percentage := 0,
              stage := Stage.error }])

/-- **C8 counterexample.** A 20-frame run that fails while processing
frame 15 emits percentages `0, 0, 50, 0`: the trailing `error` event
resets the percentage to 0, so the reported percentages are *not*
non-decreasing over the whole sequence. -/
theorem progress_percentage_decreases_on_error :
    ¬ ((progressTrace 20 (some 15)).map ProgressEvent.percentage).Pairwise
        (· ≤ ·) := by
  intro h
  have h50 : ((10 : ℚ) / 20 * 100) ≤ 0 := by
    have hm : (progressTrace 20 (some 15)).map ProgressEvent.percentage
        = [0, 0 / 20 * 100, 10 / 20 * 100, 0] := by rfl
    rw [hm] at h
    exact (List.pairwise_cons.mp
      (List.pairwise_cons.mp (List.pairwise_cons.mp h).2).2).1 0 (by simp)
  norm_num at h50

/-- Helper: a list whose entries are pairwise related by a reflexive,
trivially-true-on-the-list relation. -/
theorem pairwise_of_forall_mem {α : Type} {R : α → α → Prop} {l : List α}
    (h : ∀ a ∈ l, ∀ b ∈ l, R a b) : l.Pairwise R := by
  induction l with
  | nil => exact List.Pairwise.nil
  | cons hd tl ih =>
    refine List.Pairwise.cons ?_ (ih ?_)
    · intro b hb
      exact h hd (List.mem_cons_self _ _) b (List.mem_cons_of_mem _ hb)
    · intro a ha b hb
      exact h a (List.mem_cons_of_mem _ ha) b (List.mem_cons_of_mem _ hb)

theorem mem_processingEmitFrames {tot : ℕ} {failBefore : Option ℕ} {k : ℕ}
    (h : k ∈ processingEmitFrames tot failBefore) : k ≤ tot := by
  rw [processingEmitFrames, List.mem_filter, List.mem_range] at h
  omega

/-- **C8 amended.** In every run the stage ranks along the event sequence
are non-decreasing (stages only move forward, with `error` terminal); in a
run without a fatal error the reported percentages are non-decreasing.
The percentage monotonicity fails only at the error event, which resets
the percentage to 0. -/
theorem progress_stages_forward_and_percent_monotone (tot : ℕ)
    (failBefore : Option ℕ) (htot : 1 ≤ tot) :
    ((progressTrace tot failBefore).map (fun ev => stageRank ev.stage)).Pairwise
        (· ≤ ·)
    ∧ ((progressTrace tot none).map ProgressEvent.percentage).Pairwise
        (· ≤ ·) := by
  constructor
  · rw [progressTrace.eq_def, List.map_cons, List.pairwise_cons]
    constructor
    · intro a ha
      simp only [List.mem_map, List.mem_append, List.mem_map] at ha
      obtain ⟨ev, hev, rfl⟩ := ha
      rcases hev with hev | hev
      · obtain ⟨k, -, rfl⟩ := hev
        simp [renderProgressEvent, stageRank]
      · cases failBefore <;> simp_all [stageRank] <;> rcases hev with h | h <;>
          simp [h, stageRank]
    · rw [List.map_append]
      rw [List.pairwise_append]
      refine ⟨?_, ?_, ?_⟩
      · rw [List.map_map]
        refine pairwise_of_forall_mem ?_
        intro a ha b hb
        simp only [List.mem_map, Function.comp_apply] at ha hb
        obtain ⟨k, -, rfl⟩ := ha
        obtain ⟨k2, -, rfl⟩ := hb
        simp [renderProgressEvent, stageRank]
      · cases failBefore <;> simp [stageRank]
      · intro a ha b hb
        rw [List.map_map] at ha
        obtain ⟨k, -, rfl⟩ := List.mem_map.mp ha
        simp only [Function.comp_apply, renderProgressEvent]
        cases failBefore <;> simp only [List.map_cons, List.map_nil,
          List.mem_cons, List.not_mem_nil, or_false] at hb <;>
          rcases hb with rfl | hb <;> simp_all [stageRank]
  · rw [progressTrace.eq_def, List.map_cons, List.pairwise_cons]
    have hpercent_nonneg : ∀ k : ℕ, (0 : ℚ) ≤ (k : ℚ) / (tot : ℚ) * 100 := by
      intro k
      positivity
    have hpercent_le : ∀ k : ℕ, k ≤ tot → (k : ℚ) / (tot : ℚ) * 100 ≤ 100 := by
      intro k hk
      have htotq : (0 : ℚ) < (tot : ℚ) := by
        exact_mod_cast Nat.lt_of_lt_of_le Nat.zero_lt_one htot
      rw [div_mul_eq_mul_div, div_le_iff₀ htotq]
      have : (k : ℚ) ≤ (tot : ℚ) := by exact_mod_cast hk
      nlinarith
    constructor
    · intro a ha
      simp only [List.mem_map, List.mem_append, List.mem_cons,
        List.not_mem_nil, or_false] at ha
      obtain ⟨ev, hev, rfl⟩ := ha
      rcases hev with ⟨k, -, rfl⟩ | rfl | rfl
      · exact hpercent_nonneg k
      · norm_num
      · norm_num
    · rw [List.map_append, List.pairwise_append]
      refine ⟨?_, ?_, ?_⟩
      · rw [List.map_map]
        have hmono : ∀ a b : ℕ, a < b →
            (a : ℚ) / (tot : ℚ) * 100 ≤ (b : ℚ) / (tot : ℚ) * 100 := by
          intro a b hab
          have habq : (a : ℚ) ≤ (b : ℚ) := by exact_mod_cast Nat.le_of_lt hab
          have htotq : (0 : ℚ) ≤ (tot : ℚ) := by positivity
          gcongr
        refine List.Pairwise.map _ ?_
          ((List.pairwise_lt_range _).filter _)
        intro a b hab
        exact hmono a b hab
      · simp
      · intro a ha b hb
        rw [List.map_map] at ha
        obtain ⟨k, hk, rfl⟩ := List.mem_map.mp ha
        have hk' : k ≤ tot := mem_processingEmitFrames hk
        simp only [List.map_cons, List.map_nil, List.mem_cons,
          List.not_mem_nil, or_false] at hb
        rcases hb with rfl | rfl <;>
          simpa [renderProgressEvent] using hpercent_le k hk'

theorem progress_witness :
    (1 ≤ 20)
    ∧ ((progressTrace 20 (some 15)).map (fun ev => stageRank ev.stage)).Pairwise
        (· ≤ ·)
    ∧ ((progressTrace 20 none).map ProgressEvent.percentage).Pairwise
        (· ≤ ·) :=
  ⟨by decide,
    (progress_stages_forward_and_percent_monotone 20 (some 15) (by decide)).1,
    (progress_stages_forward_and_percent_monotone 20 (some 15) (by decide)).2⟩

/-! ## Audio mixer (AudioProcessor.processAudio / mixAudioElement).
The decode/resample step (`decodeAudioData` + `OfflineAudioContext`) is
I/O; its result — the processed buffer at the output sample rate — is
taken as the element's `src` channel data.  Samples are exact rationals. -/

/-- An audio-bearing element as seen by the mixer.  `isAudioMedia` models
`element.type === 'media' && mediaType ∈ {audio, video}`; `src` is the
channel data of `processedBuffer` (post-resampling) and `srcLength` its
frame count (`processedBuffer.length`). -/
structure AudioElement where
  name : String
  isAudioMedia : Bool
  startTime : ℚ
  trimStart : ℚ
  trimEnd : ℚ
  srcLength : ℕ
  src : List (List ℚ)
deriving DecidableEq

/-- A track as seen by the mixer: `isAudioKind` models
`track.type === 'audio'`. -/
structure AudioTrack where
  isAudioKind : Bool
  muted : Bool
  elements : List AudioElement
deriving DecidableEq

/-- The in-place clamp after each addition:
`if (v > 1) v = 1; if (v < -1) v = -1`. -/
def clampSample (x : ℚ) : ℚ :=
  if 1 < x then 1 else if x < -1 then -1 else x

/-- The inner mixing loop of `mixAudioElement` for one channel, written
per output index `j = startSample + i`: the loop body runs for
`0 ≤ i < sourceDuration` with `startSample + i < outputData.length` and
`0 ≤ trimStartSamples + i < sourceData.length`, and each output index is
written at most once, so the loop is equivalent to this indexed map. -/
def mixChannel (outData srcData : List ℚ)
    (startSample trimStartSamples sourceDuration : ℤ) : List ℚ :=
  (List.range outData.length).map fun (j : ℕ) =>
    if startSample ≤ (j : ℤ) ∧ (j : ℤ) - startSample < sourceDuration
        ∧ trimStartSamples + ((j : ℤ) - startSample) < (srcData.length : ℤ)
        ∧ 0 ≤ trimStartSamples + ((j : ℤ) - startSample) then
      clampSample (outData.getD j 0
        + srcData.getD (trimStartSamples + ((j : ℤ) - startSample)).toNat 0)
    else outData.getD j 0

/-- The channel loop `for channel < min(out.numberOfChannels,
src.numberOfChannels)`: channels are paired positionally; output channels
beyond the source channel count are unmodified. -/
def mixChannels (startSample trimStartSamples sourceDuration : ℤ) :
    List (List ℚ) → List (List ℚ) → List (List ℚ)
  | [], _ => []
  | out :: outRest, [] => out :: outRest
  | out :: outRest, src :: srcRest =>
      mixChannel out src startSample trimStartSamples sourceDuration
        :: mixChannels startSample trimStartSamples sourceDuration outRest srcRest

/-- `AudioProcessor.mixAudioElement`:
`startSample = floor(startTime * rate)`, `trimStartSamples =
floor(trimStart * rate)`, `trimEndSamples = floor(trimEnd * rate)`,
`sourceDuration = processedBuffer.length - trimStartSamples -
trimEndSamples`, then the per-channel accumulate-and-clamp loop. -/
def mixAudioElement (sampleRate : ℕ) (outputBuffer : List (List ℚ))
    (element : AudioElement) : List (List ℚ) :=
  let startSample : ℤ := ⌊element.startTime * (sampleRate : ℚ)⌋
  let trimStartSamples : ℤ := ⌊element.trimStart * (sampleRate : ℚ)⌋
  let trimEndSamples : ℤ := ⌊element.trimEnd * (sampleRate : ℚ)⌋
  let sourceDuration : ℤ :=
    (element.srcLength : ℤ) - trimStartSamples - trimEndSamples
  mixChannels startSample trimStartSamples sourceDuration
    outputBuffer element.src

/-- `AudioProcessor.processAudio`: filter the audio-bearing tracks,
return early when there are none, otherwise allocate an all-zero
`AudioBuffer` of `numberOfChannels` channels and
`ceil(duration * sampleRate)` frames and fold every audio-bearing element
of every non-muted audio track through `mixAudioElement`. -/
def processAudio (duration : ℚ) (sampleRate numberOfChannels : ℕ)
    (tracks : List AudioTrack) : Option (List (List ℚ)) :=
  let audioTracks := tracks.filter fun tr =>
    tr.isAudioKind || tr.elements.any (·.isAudioMedia)
  if audioTracks.isEmpty then none
  else
    let len := (⌈duration * (sampleRate : ℚ)⌉).toNat
    let audioBuffer := List.replicate numberOfChannels (List.replicate len 0)
    some (audioTracks.foldl
      (fun buf tr =>
        if tr.muted then buf
        else tr.elements.foldl
          (fun b el => if el.isAudioMedia then mixAudioElement sampleRate b el
            else b) buf)
      audioBuffer)

theorem clampSample_bounds (x : ℚ) : -1 ≤ clampSample x ∧ clampSample x ≤ 1 := by
  rw [clampSample]
  split_ifs with h1 h2 <;> constructor <;> linarith

theorem mixChannel_length (o s : List ℚ) (a b c : ℤ) :
    (mixChannel o s a b c).length = o.length := by
  simp [mixChannel]

theorem mixChannel_bounds (o s : List ℚ) (a b c : ℤ)
    (h : ∀ x ∈ o, -1 ≤ x ∧ x ≤ 1) :
    ∀ x ∈ mixChannel o s a b c, -1 ≤ x ∧ x ≤ 1 := by
  intro x hx
  rw [mixChannel] at hx
  obtain ⟨j, hj, rfl⟩ := List.mem_map.mp hx
  rw [List.mem_range] at hj
  split_ifs with hc
  · exact clampSample_bounds _
  · rw [List.getD_eq_getElem o 0 hj]
    exact h _ (List.getElem_mem hj)

theorem mixChannels_length (a b c : ℤ) :
    ∀ (outs srcs : List (List ℚ)),
      (mixChannels a b c outs srcs).length = outs.length := by
  intro outs
  induction outs with
  | nil => intro srcs; cases srcs <;> rfl
  | cons out rest ih =>
    intro srcs
    cases srcs with
    | nil => rfl
    | cons src srest => simp [mixChannels, ih srest]

theorem mixChannels_forall (a b c : ℤ) (Q : List ℚ → Prop)
    (hQ : ∀ o s, Q o → Q (mixChannel o s a b c)) :
    ∀ (outs srcs : List (List ℚ)), (∀ ch ∈ outs, Q ch) →
      ∀ ch ∈ mixChannels a b c outs srcs, Q ch := by
  intro outs
  induction outs with
  | nil => intro srcs h ch hch; cases srcs <;> simp [mixChannels] at hch
  | cons out rest ih =>
    intro srcs h ch hch
    cases srcs with
    | nil => exact h ch hch
    | cons src srest =>
      rcases List.mem_cons.mp hch with rfl | hch2
      · exact hQ out src (h out (List.mem_cons_self _ _))
      · exact ih srest (fun x hx => h x (List.mem_cons_of_mem _ hx)) ch hch2

theorem mixChannels_getElem?_both (a b c : ℤ) :
    ∀ (outs srcs : List (List ℚ)) (ch : ℕ) (o s : List ℚ),
      outs[ch]? = some o → srcs[ch]? = some s →
      (mixChannels a b c outs srcs)[ch]? = some (mixChannel o s a b c) := by
  intro outs
  induction outs with
  | nil => intro srcs ch o s ho _; simp at ho
  | cons out rest ih =>
    intro srcs ch o s ho hs
    cases srcs with
    | nil => simp at hs
    | cons src srest =>
      cases ch with
      | zero =>
        simp only [List.getElem?_cons_zero, Option.some.injEq] at ho hs
        subst ho
        subst hs
        simp [mixChannels]
      | succ n =>
        simp only [List.getElem?_cons_succ] at ho hs
        simpa [mixChannels] using ih srest n o s ho hs

/-- A buffer is well-formed when it has the right channel count, the right
per-channel length, and every sample in `[-1, 1]`. -/
def BufWF (numberOfChannels len : ℕ) (buf : List (List ℚ)) : Prop :=
  buf.length = numberOfChannels
    ∧ ∀ ch ∈ buf, ch.length = len ∧ ∀ x ∈ ch, -1 ≤ x ∧ x ≤ 1

theorem foldl_preserves {α β : Type} {P : β → Prop} (f : β → α → β)
    (h : ∀ b a, P b → P (f b a)) :
    ∀ (l : List α) (b : β), P b → P (l.foldl f b) := by
  intro l
  induction l with
  | nil => intro b hb; exact hb
  | cons hd tl ih => intro b hb; exact ih (f b hd) (h b hd hb)

theorem mixAudioElement_wf (sampleRate numberOfChannels len : ℕ)
    (el : AudioElement) (buf : List (List ℚ)) (h : BufWF numberOfChannels len buf) :
    BufWF numberOfChannels len (mixAudioElement sampleRate buf el) := by
  obtain ⟨hn, hch⟩ := h
  rw [mixAudioElement]
  refine ⟨by rw [mixChannels_length]; exact hn, ?_⟩
  refine mixChannels_forall _ _ _
    (fun ch => ch.length = len ∧ ∀ x ∈ ch, -1 ≤ x ∧ x ≤ 1) ?_ _ _ hch
  intro o s hQ
  exact ⟨by rw [mixChannel_length]; exact hQ.1, mixChannel_bounds o s _ _ _ hQ.2⟩

theorem processAudio_wf (duration : ℚ) (sampleRate numberOfChannels : ℕ)
    (tracks : List AudioTrack) (buf : List (List ℚ))
    (hbuf : processAudio duration sampleRate numberOfChannels tracks = some buf) :
    BufWF numberOfChannels (⌈duration * (sampleRate : ℚ)⌉).toNat buf := by
  rw [processAudio] at hbuf
  split_ifs at hbuf with hempty
  rw [Option.some_inj] at hbuf
  subst hbuf
  have hinit : BufWF numberOfChannels (⌈duration * (sampleRate : ℚ)⌉).toNat
      (List.replicate numberOfChannels
        (List.replicate (⌈duration * (sampleRate : ℚ)⌉).toNat (0 : ℚ))) := by
    refine ⟨List.length_replicate _ _, ?_⟩
    intro ch hch
    rw [List.eq_of_mem_replicate hch]
    refine ⟨List.length_replicate _ _, ?_⟩
    intro x hx
    rw [List.eq_of_mem_replicate hx]
    norm_num
  refine foldl_preserves _ ?_ _ _ hinit
  intro b tr hb
  split_ifs with hmut
  · exact hb
  · refine foldl_preserves _ ?_ _ _ hb
    intro b2 el hb2
    split_ifs with hmedia
    · exact mixAudioElement_wf _ _ _ el b2 hb2
    · exact hb2

/-- **C2.** The mixer's output buffer (when the timeline has audio-bearing
tracks) has `numberOfChannels` channels of `ceil(duration · sampleRate)`
samples, every sample lying in `[-1, 1]`; and one `mixAudioElement` step
adds `src[c][trimStartS + i]` into `out[c][offset + i]` and clamps, for
every channel `c < min(srcCh, outCh)` and every `i < effectiveLength` with
`offset + i` inside the buffer, where `offset = floor(startTime · rate)`,
`trimStartS = floor(trimStart · rate)`, `trimEndS = floor(trimEnd · rate)`
and `effectiveLength = srcLength − trimStartS − trimEndS`. -/
theorem audio_mixer_length_mix_and_clamp (duration : ℚ)
    (sampleRate numberOfChannels : ℕ) (tracks : List AudioTrack)
    (buf : List (List ℚ))
    (hbuf : processAudio duration sampleRate numberOfChannels tracks = some buf)
    (el : AudioElement) (out : List (List ℚ)) (c i : ℕ)
    (outData srcData : List ℚ)
    (hst : 0 ≤ el.startTime) (hts : 0 ≤ el.trimStart) (hte : 0 ≤ el.trimEnd)
    (hout : out[c]? = some outData) (hsrc : el.src[c]? = some srcData)
    (hsl : srcData.length = el.srcLength)
    (hi : (i : ℤ) < (el.srcLength : ℤ)
      - ⌊el.trimStart * (sampleRate : ℚ)⌋ - ⌊el.trimEnd * (sampleRate : ℚ)⌋)
    (hoff : (⌊el.startTime * (sampleRate : ℚ)⌋).toNat + i < outData.length) :
    (buf.length = numberOfChannels
      ∧ ∀ ch ∈ buf, ch.length = (⌈duration * (sampleRate : ℚ)⌉).toNat
          ∧ ∀ x ∈ ch, -1 ≤ x ∧ x ≤ 1)
    ∧ ((mixAudioElement sampleRate out el)[c]?.getD []).getD
          ((⌊el.startTime * (sampleRate : ℚ)⌋).toNat + i) 0
        = clampSample
            (outData.getD ((⌊el.startTime * (sampleRate : ℚ)⌋).toNat + i) 0
              + srcData.getD ((⌊el.trimStart * (sampleRate : ℚ)⌋).toNat + i) 0) := by
  constructor
  · exact processAudio_wf duration sampleRate numberOfChannels tracks buf hbuf
  · have hrate : (0 : ℚ) ≤ (sampleRate : ℚ) := by positivity
    have hS : 0 ≤ ⌊el.startTime * (sampleRate : ℚ)⌋ :=
      Int.floor_nonneg.mpr (mul_nonneg hst hrate)
    have hT : 0 ≤ ⌊el.trimStart * (sampleRate : ℚ)⌋ :=
      Int.floor_nonneg.mpr (mul_nonneg hts hrate)
    have hE : 0 ≤ ⌊el.trimEnd * (sampleRate : ℚ)⌋ :=
      Int.floor_nonneg.mpr (mul_nonneg hte hrate)
    rw [mixAudioElement]
    rw [mixChannels_getElem?_both _ _ _ out el.src c outData srcData hout hsrc]
    rw [Option.getD_some]
    set S := ⌊el.startTime * (sampleRate : ℚ)⌋ with hSdef
    set T := ⌊el.trimStart * (sampleRate : ℚ)⌋ with hTdef
    set E := ⌊el.trimEnd * (sampleRate : ℚ)⌋ with hEdef
    set j := S.toNat + i with hjdef
    have hj : j < outData.length := hoff
    have hmap : (mixChannel outData srcData S T ((el.srcLength : ℤ) - T - E)).getD j 0
        = if S ≤ (j : ℤ) ∧ (j : ℤ) - S < (el.srcLength : ℤ) - T - E
              ∧ T + ((j : ℤ) - S) < (srcData.length : ℤ)
              ∧ 0 ≤ T + ((j : ℤ) - S) then
            clampSample (outData.getD j 0
              + srcData.getD (T + ((j : ℤ) - S)).toNat 0)
          else outData.getD j 0 := by
      rw [mixChannel, List.getD_eq_getElem?_getD, List.getElem?_map]
      rw [List.getElem?_range hj]
      rfl
    rw [hmap]
    have hcond : S ≤ (j : ℤ) ∧ (j : ℤ) - S < (el.srcLength : ℤ) - T - E
        ∧ T + ((j : ℤ) - S) < (srcData.length : ℤ)
        ∧ 0 ≤ T + ((j : ℤ) - S) := by
      rw [hsl]
      omega
    rw [if_pos hcond]
    have hidx : (T + ((j : ℤ) - S)).toNat = T.toNat + i := by omega
    rw [hidx]

/-- The concrete mixer element used by the C2 witness. -/
def mixWitnessElement : AudioElement :=
  { name := "a", isAudioMedia := true, startTime := 0,
    trimStart := 0, trimEnd := 0, srcLength := 2, src := [[1, -2]] }

/-- The concrete mixer track list used by the C2 witness. -/
def mixWitnessTracks : List AudioTrack :=
  [{ isAudioKind := true, muted := false, elements := [mixWitnessElement] }]

theorem audio_mixer_witness :
    processAudio 1 2 1 mixWitnessTracks = some [[1, -1]]
    ∧ (([[1, -1]] : List (List ℚ)).length = 1
      ∧ ∀ ch ∈ ([[1, -1]] : List (List ℚ)),
          ch.length = (⌈(1 : ℚ) * ((2 : ℕ) : ℚ)⌉).toNat
          ∧ ∀ x ∈ ch, -1 ≤ x ∧ x ≤ 1)
    ∧ ((mixAudioElement 2 [[0, 0]] mixWitnessElement)[0]?.getD []).getD
          ((⌊mixWitnessElement.startTime * ((2 : ℕ) : ℚ)⌋).toNat + 0) 0
        = clampSample
            (([0, 0] : List ℚ).getD
                ((⌊mixWitnessElement.startTime * ((2 : ℕ) : ℚ)⌋).toNat + 0) 0
              + ([1, -2] : List ℚ).getD
                  ((⌊mixWitnessElement.trimStart * ((2 : ℕ) : ℚ)⌋).toNat + 0) 0) := by
  have hceil : (⌈(1 : ℚ) * ((2 : ℕ) : ℚ)⌉).toNat = 2 := by
    norm_num
    rfl
  have hfloor : ⌊(0 : ℚ) * ((2 : ℕ) : ℚ)⌋ = 0 := by norm_num
  have hbuf : processAudio 1 2 1 mixWitnessTracks = some [[1, -1]] := by
    norm_num [processAudio, mixWitnessTracks, mixWitnessElement,
      mixAudioElement, mixChannels, mixChannel, clampSample, hceil, hfloor,
      List.range_succ, List.replicate]
  have h := audio_mixer_length_mix_and_clamp 1 2 1 mixWitnessTracks
    [[1, -1]] hbuf mixWitnessElement [[0, 0]] 0 0 [0, 0] [1, -2]
    (by norm_num [mixWitnessElement]) (by norm_num [mixWitnessElement])
    (by norm_num [mixWitnessElement]) rfl rfl rfl
    (by norm_num [mixWitnessElement]) (by norm_num [mixWitnessElement])
  exact ⟨hbuf, h.1, h.2⟩

/-! ## Export settings validation (ConfigGenerator.getDefaultSettings /
validateSettings).  `validateSettings` is a total function of the partial
settings record: it cannot throw or reject. -/

/-- A fully resolved `ExportSettings` record. -/
structure ExportSettings where
  resolution : ℚ
  fps : ℚ
  videoBitrate : ℚ
  sampleRate : ℚ
  numberOfChannels : ℚ
  audioBitrate : ℚ
  width : ℚ
  height : ℚ
  backgroundColor : String
  hardwareAcceleration : Bool
  fileName : String
deriving DecidableEq

/-- `ConfigGenerator.getDefaultSettings`. -/
def getDefaultSettings : ExportSettings :=
  { resolution := 1, fps := 30, videoBitrate := 4000000,
    sampleRate := 48000, numberOfChannels := 2, audioBitrate := 128000,
    width := 1920, height := 1080, backgroundColor := "#000000",
    hardwareAcceleration := true, fileName := "export.mp4" }

/-- A `Partial<ExportSettings>` argument: every field optional. -/
structure ExportSettingsPatch where
  resolution : Option ℚ := none
  fps : Option ℚ := none
  videoBitrate : Option ℚ := none
  sampleRate : Option ℚ := none
  numberOfChannels : Option ℚ := none
  audioBitrate : Option ℚ := none
  width : Option ℚ := none
  height : Option ℚ := none
  backgroundColor : Option String := none
  hardwareAcceleration : Option Bool := none
  fileName : Option String := none
deriving DecidableEq

/-- JS `v || d` on numbers: a present non-zero value, else the default
(`0` is falsy; `NaN` is outside this model). -/
def jsOrNum (v : Option ℚ) (d : ℚ) : ℚ :=
  match v with
  | none => d
  | some x => if x = 0 then d else x

/-- The sample rates accepted by `validateSettings`. -/
def allowedSampleRates : List ℚ := [8000, 16000, 22050, 44100, 48000]

/-- `ConfigGenerator.validateSettings`: spread the defaults, spread the
provided fields, then clamp each numeric field with
`Math.max(lo, Math.min(hi, v || default))` and filter the sample rate
through the allow-list. -/
def validateSettings (s : ExportSettingsPatch) : ExportSettings :=
  let d := getDefaultSettings
  { resolution := max (1 / 4 : ℚ) (min 4 (jsOrNum s.resolution d.resolution))
    fps := max 1 (min 120 (jsOrNum s.fps d.fps))
    videoBitrate :=
      max 500000 (min 100000000 (jsOrNum s.videoBitrate d.videoBitrate))
    sampleRate :=
      if jsOrNum s.sampleRate d.sampleRate ∈ allowedSampleRates then
        jsOrNum s.sampleRate d.sampleRate
      else d.sampleRate
    numberOfChannels :=
      max 1 (min 8 (jsOrNum s.numberOfChannels d.numberOfChannels))
    audioBitrate :=
      max 64000 (min 320000 (jsOrNum s.audioBitrate d.audioBitrate))
    width := max 64 (min 7680 (jsOrNum s.width d.width))
    height := max 64 (min 4320 (jsOrNum s.height d.height))
    backgroundColor := s.backgroundColor.getD d.backgroundColor
    hardwareAcceleration :=
      s.hardwareAcceleration.getD d.hardwareAcceleration
    fileName := s.fileName.getD d.fileName }

theorem clamp_mem {lo hi v : ℚ} (h : lo ≤ hi) :
    lo ≤ max lo (min hi v) ∧ max lo (min hi v) ≤ hi :=
  ⟨le_max_left _ _, max_le h (min_le_left _ _)⟩

/-- **C10.** For every partial settings record the (total, non-throwing)
`validateSettings` returns values inside the documented ranges, a sample
rate from the allow-list that is either the provided one or the default
48000, and the defaults when nothing is provided. -/
theorem validate_settings_clamps_into_ranges (s : ExportSettingsPatch) :
    (1 / 4 ≤ (validateSettings s).resolution
      ∧ (validateSettings s).resolution ≤ 4)
    ∧ (1 ≤ (validateSettings s).fps ∧ (validateSettings s).fps ≤ 120)
    ∧ (500000 ≤ (validateSettings s).videoBitrate
      ∧ (validateSettings s).videoBitrate ≤ 100000000)
    ∧ (1 ≤ (validateSettings s).numberOfChannels
      ∧ (validateSettings s).numberOfChannels ≤ 8)
    ∧ (64000 ≤ (validateSettings s).audioBitrate
      ∧ (validateSettings s).audioBitrate ≤ 320000)
    ∧ (64 ≤ (validateSettings s).width ∧ (validateSettings s).width ≤ 7680)
    ∧ (64 ≤ (validateSettings s).height ∧ (validateSettings s).height ≤ 4320)
    ∧ (validateSettings s).sampleRate ∈ allowedSampleRates
    ∧ ((validateSettings s).sampleRate = 48000
      ∨ s.sampleRate = some (validateSettings s).sampleRate)
    ∧ validateSettings {} = getDefaultSettings := by
  refine ⟨clamp_mem (by norm_num), clamp_mem (by norm_num),
    clamp_mem (by norm_num), clamp_mem (by norm_num),
    clamp_mem (by norm_num), clamp_mem (by norm_num),
    clamp_mem (by norm_num), ?_, ?_, ?_⟩
  · rw [validateSettings]
    split_ifs with hmem
    · exact hmem
    · norm_num [getDefaultSettings, allowedSampleRates]
  · rw [validateSettings]
    split_ifs with hmem
    · rcases hs : s.sampleRate with - | v
      · left
        simp [jsOrNum, hs, getDefaultSettings]
      · by_cases hv : v = 0
        · left
          simp [jsOrNum, hs, hv, getDefaultSettings]
        · right
          simp [jsOrNum, hs, hv]
    · left
      simp [getDefaultSettings]
  · show ExportSettings.mk _ _ _ _ _ _ _ _ _ _ _ = _
    rw [getDefaultSettings]
    norm_num [jsOrNum, allowedSampleRates]

end Univa
